import Mathlib

/-!
Shallow embedding of the icon-generation core (`utils.ts`): `normalizeNode`,
`generateAbstractTree`, `getIdentifier`, `withSuffix`, `getRollbackTheme`,
`isAccessable` and `theseShouldBeWithTheme`.  JavaScript objects built by
`Object.defineProperty` / property assignment are modelled as
insertion-ordered association lists, thrown exceptions as `Except String`
carrying the message, and `NaN` results of `Number.parseInt` as `none`.
-/

namespace IconGen

/-- One `{name, value}` attribute pair of the DOM-like input node. -/
structure Attr where
  name : String
  value : String
deriving DecidableEq, Repr

/-- Modelled from the spec: the parsed DOM-like input node shape of §6
(`tagName`, `attrs`, `childNodes`); the external `Node` typings file is not
part of the sources.  A missing `tagName` is modelled as `""` (JavaScript
`!tag` is true for both `undefined` and the empty string). -/
inductive Node where
  | mk (tagName : String) (attrs : List Attr) (childNodes : List Node)

def Node.tagName : Node → String
  | .mk t _ _ => t

def Node.attrs : Node → List Attr
  | .mk _ a _ => a

def Node.childNodes : Node → List Node
  | .mk _ _ c => c

/-- Modelled from the spec: for element nodes of the external parser the
`nodeName` field coincides with `tagName`; the spec's input shape (§6) has a
single tag-name field. -/
def Node.nodeName (n : Node) : String := n.tagName

/-- The canonical output unit: tag, attribute mapping (insertion-ordered
association list) and ordered children. -/
inductive AbstractNode where
  | mk (tag : String) (attrs : List (String × String)) (children : List AbstractNode)

def AbstractNode.tag : AbstractNode → String
  | .mk t _ _ => t

def AbstractNode.attrs : AbstractNode → List (String × String)
  | .mk _ a _ => a

def AbstractNode.children : AbstractNode → List AbstractNode
  | .mk _ _ c => c

/-- Model of `Object.defineProperty(acc, name, { value, enumerable: true })` on the
accumulator object of `normalizeNode`: the property is created
non-configurable and non-writable, so redefining an existing name with a
different value throws a `TypeError`, while redefining it with the same
value is a no-op (ES `ValidateAndApplyPropertyDescriptor`). -/
def definePropertyAttr (acc : List (String × String)) (name value : String) :
    Except String (List (String × String)) :=
  match acc.find? (fun p => p.1 == name) with
  | none => .ok (acc ++ [(name, value)])
  | some p =>
      if p.2 == value then .ok acc
      else .error ("Cannot redefine property: " ++ name)

/-- The `node.attrs.reduce(...)` of `normalizeNode`, building the `attrs`
object left to right from the given accumulator. -/
def reduceAttrs : List (String × String) → List Attr →
    Except String (List (String × String))
  | acc, [] => .ok acc
  | acc, a :: rest =>
    match definePropertyAttr acc a.name a.value with
    | .error e => .error e
    | .ok acc2 => reduceAttrs acc2 rest

mutual
/-- Embeds `normalizeNode(node, debugName)`: fatal on a missing/empty tag, copies
the attributes through `Object.defineProperty`, then recursively normalizes
the children in document order. -/
def normalizeNode : Node → String → Except String AbstractNode
  | .mk tag attrs childNodes, debugName =>
    if tag = "" then
      .error (debugName ++ " Element should have no no-tag node")
    else
      match reduceAttrs [] attrs with
      | .error e => .error e
      | .ok as =>
        match normalizeChildren childNodes debugName with
        | .error e => .error e
        | .ok cs => .ok (.mk tag as cs)

/-- Embeds `node.childNodes.map((child) => normalizeNode(child, debugName))`, the
first thrown error propagating. -/
def normalizeChildren : List Node → String → Except String (List AbstractNode)
  | [], _ => .ok []
  | c :: rest, debugName =>
    match normalizeNode c debugName with
    | .error e => .error e
    | .ok a =>
      match normalizeChildren rest debugName with
      | .error e => .error e
      | .ok as => .ok (a :: as)
end

/-- Worker of `jsSplitChar`, accumulating the current token reversed. -/
def splitCharAux (sep : Char) : List Char → List Char → List String
  | [], cur => [String.mk cur.reverse]
  | c :: rest, cur =>
    if c == sep then String.mk cur.reverse :: splitCharAux sep rest []
    else splitCharAux sep rest (c :: cur)

/-- JavaScript `str.split(sep)` for a single-character separator:
`"".split(' ') = [""]`, adjacent separators produce empty tokens. -/
def jsSplitChar (s : String) (sep : Char) : List String :=
  splitCharAux sep s.data []

/-- Base-10 value of an ASCII digit run. -/
def digitsVal (ds : List Char) : Nat :=
  ds.foldl (fun acc c => acc * 10 + (c.toNat - ('0').toNat)) 0

def isJsSpace (c : Char) : Bool :=
  c == ' ' || c == '\t' || c == '\n' || c == '\r'

/-- Model of `Number.parseInt(str, 10)`: skip leading whitespace, take an optional
sign and then the longest ASCII-digit run; `none` models `NaN`. -/
def jsParseInt (s : String) : Option Int :=
  let cs := s.data.dropWhile isJsSpace
  match cs with
  | '-' :: rest =>
    let ds := rest.takeWhile Char.isDigit
    if ds.isEmpty then none else some (-(digitsVal ds : Int))
  | '+' :: rest =>
    let ds := rest.takeWhile Char.isDigit
    if ds.isEmpty then none else some ((digitsVal ds : Int))
  | _ =>
    let ds := cs.takeWhile Char.isDigit
    if ds.isEmpty then none else some ((digitsVal ds : Int))

/-- JavaScript number-to-string as used in the template literal: `NaN`
prints as `"NaN"`. -/
def jsNumberToString : Option Int → String
  | none => "NaN"
  | some n => toString n

/-- JavaScript `arr[i]` under string interpolation: out-of-range reads are
`undefined`. -/
def jsIndexString (l : List (Option Int)) (i : Nat) : String :=
  match l.get? i with
  | none => "undefined"
  | some v => jsNumberToString v

/-- The message of the size assertion in `generateAbstractTree`. -/
def sizeMessage (size : List (Option Int)) (debugName : String) : String :=
  "The size tuple should be [ width, height ], but got [ " ++
    jsIndexString size 0 ++ ", " ++ jsIndexString size 1 ++ " ] [" ++
    debugName ++ "]"

/-- Embeds `generateAbstractTree(node, debugName)`: asserts that the root is an
`svg` element carrying a `viewBox` whose tail after the first two
space-separated tokens has exactly two entries, and that at least one direct
child is a non-`style` leaf, then returns `normalizeNode`.  The initial
`assert(node, debugName)` is discharged by the non-nullable `Node` type. -/
def generateAbstractTree (node : Node) (debugName : String) :
    Except String AbstractNode :=
  if node.tagName = "svg" then
    match node.attrs.find? (fun a => a.name == "viewBox") with
    | none => .error debugName
    | some viewBox =>
      let size : List (Option Int) :=
        ((jsSplitChar viewBox.value ' ').drop 2).map jsParseInt
      if size.length = 2 then
        let oneLevelPathNodes := node.childNodes.filter
          (fun c => c.nodeName != "style" && c.childNodes.length == 0)
        if oneLevelPathNodes.length ≥ 1 then
          normalizeNode node debugName
        else .error debugName
      else .error (sizeMessage size debugName)
  else .error debugName

/-- Embeds `getIdentifier(identifier, theme)`.  The theme is a runtime string: the
`default` branch of the `switch` throws on anything outside the closed
enumeration. -/
def getIdentifier (identifier : String) (theme : String) :
    Except String String :=
  if theme == "fill" then .ok (identifier ++ "Fill")
  else if theme == "outline" then .ok (identifier ++ "Outline")
  else if theme == "twotone" then .ok (identifier ++ "TwoTone")
  else .error ("Unknown theme type: " ++ theme ++ ", identifier: " ++ identifier)

/-- Embeds `withSuffix(name, theme)`; note the irregular `-o` suffix for
`outline`. -/
def withSuffix (name : String) (theme : String) : Except String String :=
  if theme == "fill" then .ok (name ++ "-fill")
  else if theme == "outline" then .ok (name ++ "-o")
  else if theme == "twotone" then .ok (name ++ "-twotone")
  else .error ("Unknown theme type: " ++ theme ++ ", name: " ++ name)

/-- Outcome of one `fs.accessSync` probe of the external file-existence
collaborator: accessible, file absent, or an internal I/O failure.  Both of
the last two make `accessSync` throw. -/
inductive ProbeResult where
  | ok
  | absent
  | ioErr
deriving DecidableEq

structure EnvPaths where
  SVG_DIR : String

/-- The slice of `Environment` this core reads. -/
structure Environment where
  paths : EnvPaths

/-- Model of `path.resolve(env.paths.SVG_DIR, theme, kebabCaseName + ".svg")`,
modelled as posix joining of the already-absolute `SVG_DIR`. -/
def svgUrl (env : Environment) (theme : String) (kebabCaseName : String) :
    String :=
  env.paths.SVG_DIR ++ "/" ++ theme ++ "/" ++ kebabCaseName ++ ".svg"

/-- The `for (const { theme, url } of paths)` loop of `getRollbackTheme`:
`fs.accessSync(url)` succeeding returns the theme; any throw is caught
(`// noop`) and the loop continues. -/
def rollbackLoop (probe : String → ProbeResult) :
    List (String × String) → Option String
  | [] => none
  | p :: rest =>
    match probe p.2 with
    | .ok => some p.1
    | _ => rollbackLoop probe rest

/-- Embeds `getRollbackTheme(env, kebabCaseName, rollbackList)` with the external
file-existence collaborator `fs.accessSync` abstracted as `probe`. -/
def getRollbackTheme (probe : String → ProbeResult) (env : Environment)
    (kebabCaseName : String) (rollbackList : List String) :
    Except String String :=
  let paths := rollbackList.map
    (fun theme => (theme, svgUrl env theme kebabCaseName))
  match rollbackLoop probe paths with
  | some theme => .ok theme
  | none => .error ("There is no SVG of the icon: " ++ kebabCaseName)

/-- Embeds `isAccessable(url)`: `true` exactly when `fs.accessSync` does not
throw; both `absent` and an internal I/O failure yield `false`. -/
def isAccessable (probe : String → ProbeResult) (url : String) : Bool :=
  match probe url with
  | .ok => true
  | _ => false

/-- Modelled from the spec: lodash `_.upperFirst` (external library). -/
def upperFirst (s : String) : String :=
  match s.data with
  | [] => ""
  | c :: rest => String.mk (c.toUpper :: rest)

/-- Maximal alphanumeric runs of a character list. -/
def wordsAux : List Char → List Char → List (List Char)
  | [], cur => if cur.isEmpty then [] else [cur.reverse]
  | c :: rest, cur =>
    if c.isAlphanum then wordsAux rest (c :: cur)
    else if cur.isEmpty then wordsAux rest []
    else cur.reverse :: wordsAux rest []

def capitalizeWord : List Char → List Char
  | [] => []
  | c :: rest => c.toUpper :: rest.map Char.toLower

/-- Modelled from the spec: lodash `_.camelCase` (external library),
restricted to the ASCII icon names this tool feeds it — words are the
maximal alphanumeric runs, the first lowercased, the rest capitalised. -/
def camelCase (s : String) : String :=
  match wordsAux s.data [] with
  | [] => ""
  | w :: ws => String.mk (w.map Char.toLower ++ (ws.map capitalizeWord).flatten)

/-- The `acc[key] = value` object assignment of the final `reduce` in
`theseShouldBeWithTheme`: an existing key keeps its position and gets the
new value, a new key is appended. -/
def assignKey : List (String × String) → String → String →
    List (String × String)
  | [], k, v => [(k, v)]
  | p :: rest, k, v =>
    if p.1 == k then (p.1, v) :: rest else p :: assignKey rest k v

/-- The body of the `basicNames.map(...)` callback of
`theseShouldBeWithTheme`: the kebab name, or the identifier of the
PascalCased base name. -/
def themedValue (basicName theme : String) (isKebabCase : Bool) :
    Except String String :=
  if isKebabCase then withSuffix basicName theme
  else getIdentifier (upperFirst (camelCase basicName)) theme

/-- The `basicNames.map(...)` of `theseShouldBeWithTheme`, pairing each base
name with its themed value; the first thrown error propagates. -/
def themedPairs : List String → String → Bool →
    Except String (List (String × String))
  | [], _, _ => .ok []
  | basicName :: rest, theme, isKebabCase =>
    match themedValue basicName theme isKebabCase with
    | .error e => .error e
    | .ok value =>
      match themedPairs rest theme isKebabCase with
      | .error e => .error e
      | .ok ps => .ok ((basicName, value) :: ps)

/-- The final `reduce` of `theseShouldBeWithTheme`. -/
def reduceAssign : List (String × String) → List (String × String) →
    List (String × String)
  | acc, [] => acc
  | acc, p :: rest => reduceAssign (assignKey acc p.1 p.2) rest

/-- Embeds `theseShouldBeWithTheme(basicNames, theme, isKebabCase)`. -/
def theseShouldBeWithTheme (basicNames : List String) (theme : String)
    (isKebabCase : Bool) : Except String (List (String × String)) :=
  match themedPairs basicNames theme isKebabCase with
  | .error e => .error e
  | .ok ps => .ok (reduceAssign [] ps)

/-! Statement-side vocabulary. -/

/-- The first list is an initial segment of the second. -/
def leadsList : List Char → List Char → Bool
  | [], _ => true
  | _ :: _, [] => false
  | a :: as, b :: bs => a == b && leadsList as bs

/-- Whether `needle` occurs as a contiguous segment of `hay`. -/
def occursList (needle : List Char) : List Char → Bool
  | [] => needle.isEmpty
  | c :: rest => leadsList needle (c :: rest) || occursList needle rest

/-- Whether `needle` occurs somewhere in `hay` (substring containment). -/
def containsStr (hay needle : String) : Bool :=
  occursList needle.data hay.data

mutual
/-- Every node of the input subtree has a non-empty tag name. -/
def noEmptyTags : Node → Bool
  | .mk tag _ cs => (tag != "") && noEmptyTagsList cs

def noEmptyTagsList : List Node → Bool
  | [] => true
  | c :: cs => noEmptyTags c && noEmptyTagsList cs
end

/-- The attribute names of one node are pairwise distinct. -/
def namesNodup : List Attr → Bool
  | [] => true
  | a :: rest => rest.all (fun b => b.name != a.name) && namesNodup rest

mutual
/-- Every node of the input subtree has pairwise-distinct attribute
names. -/
def uniqueAttrs : Node → Bool
  | .mk _ attrs cs => namesNodup attrs && uniqueAttrsList cs

def uniqueAttrsList : List Node → Bool
  | [] => true
  | c :: cs => uniqueAttrs c && uniqueAttrsList cs
end

mutual
/-- Every node of the output tree has a non-empty tag. -/
def allTagsNonEmpty : AbstractNode → Bool
  | .mk tag _ cs => (tag != "") && allTagsNonEmptyList cs

def allTagsNonEmptyList : List AbstractNode → Bool
  | [] => true
  | c :: cs => allTagsNonEmpty c && allTagsNonEmptyList cs
end

/-! Induction principle for the nested `Node` type. -/

theorem Node.strongInduction {P : Node → Prop}
    (h : ∀ tag attrs cs, (∀ c ∈ cs, P c) → P (.mk tag attrs cs)) :
    ∀ n, P n
  | .mk tag attrs cs => h tag attrs cs (fun c hc => Node.strongInduction h c)
termination_by n => sizeOf n
decreasing_by
  have h1 := List.sizeOf_lt_of_mem hc
  simp only [Node.mk.sizeOf_spec]
  omega

/-! Basic facts about the list forms of the subtree predicates. -/

theorem noEmptyTagsList_iff (l : List Node) :
    noEmptyTagsList l = true ↔ ∀ c ∈ l, noEmptyTags c = true := by
  induction l with
  | nil => simp [noEmptyTagsList]
  | cons c cs ih => simp [noEmptyTagsList, ih]

theorem uniqueAttrsList_iff (l : List Node) :
    uniqueAttrsList l = true ↔ ∀ c ∈ l, uniqueAttrs c = true := by
  induction l with
  | nil => simp [uniqueAttrsList]
  | cons c cs ih => simp [uniqueAttrsList, ih]

theorem allTagsNonEmptyList_iff (l : List AbstractNode) :
    allTagsNonEmptyList l = true ↔ ∀ c ∈ l, allTagsNonEmpty c = true := by
  induction l with
  | nil => simp [allTagsNonEmptyList]
  | cons c cs ih => simp [allTagsNonEmptyList, ih]

/-! Attribute-copy lemmas. -/

/-- With pairwise-distinct names that are all fresh for the accumulator,
the `reduce` copies the attributes verbatim. -/
theorem reduceAttrs_ok (attrs : List Attr) :
    ∀ acc : List (String × String), namesNodup attrs = true →
    (∀ a ∈ attrs, ∀ p ∈ acc, p.1 ≠ a.name) →
    reduceAttrs acc attrs = .ok (acc ++ attrs.map fun a => (a.name, a.value)) := by
  induction attrs with
  | nil => intro acc _ _; simp [reduceAttrs]
  | cons a rest ih =>
    intro acc hnd hfresh
    have hfind : acc.find? (fun p => p.1 == a.name) = none := by
      rw [List.find?_eq_none]
      intro p hp
      simpa using hfresh a (by simp) p hp
    have hnd' : namesNodup rest = true := by
      have := hnd
      simp [namesNodup, Bool.and_eq_true] at this
      exact this.2
    have hall : ∀ b ∈ rest, b.name ≠ a.name := by
      have := hnd
      simp [namesNodup, Bool.and_eq_true, List.all_eq_true] at this
      intro b hb
      exact this.1 b hb
    have hfresh' : ∀ b ∈ rest, ∀ p ∈ acc ++ [(a.name, a.value)], p.1 ≠ b.name := by
      intro b hb p hp
      rcases List.mem_append.mp hp with h1 | h1
      · exact hfresh b (by simp [hb]) p h1
      · simp at h1
        subst h1
        simpa using (hall b hb).symm
    calc reduceAttrs acc (a :: rest)
        = reduceAttrs (acc ++ [(a.name, a.value)]) rest := by
          simp [reduceAttrs, definePropertyAttr, hfind]
      _ = .ok ((acc ++ [(a.name, a.value)]) ++ rest.map fun b => (b.name, b.value)) :=
          ih _ hnd' hfresh'
      _ = .ok (acc ++ (a :: rest).map fun b => (b.name, b.value)) := by
          simp

/-- Under pairwise-distinct names the constructed `attrs` object is the
source attribute list itself, one entry per attribute. -/
theorem reduceAttrs_nodup (attrs : List Attr) (h : namesNodup attrs = true) :
    reduceAttrs [] attrs = .ok (attrs.map fun a => (a.name, a.value)) := by
  simpa using reduceAttrs_ok attrs [] h (by simp)

/-! Shape of a successful normalization. -/

/-- Unfolding a successful `normalizeNode`: the output tag is the input tag
and the attribute/children parts come from the two sub-steps. -/
theorem normalizeNode_ok_shape (n : Node) (d : String) (t : AbstractNode)
    (h : normalizeNode n d = .ok t) :
    n.tagName ≠ "" ∧ t.tag = n.tagName ∧
      reduceAttrs [] n.attrs = .ok t.attrs ∧
      normalizeChildren n.childNodes d = .ok t.children := by
  obtain ⟨tag, attrs, cs⟩ := n
  simp only [normalizeNode] at h
  by_cases htag : tag = ""
  · simp [htag] at h
  · simp only [htag, if_false] at h
    cases hra : reduceAttrs [] attrs with
    | error e => rw [hra] at h; exact absurd h (by simp)
    | ok as =>
      rw [hra] at h
      cases hnc : normalizeChildren cs d with
      | error e => rw [hnc] at h; exact absurd h (by simp)
      | ok ts =>
        rw [hnc] at h
        simp only [Except.ok.injEq] at h
        subst h
        exact ⟨htag, rfl, hra, hnc⟩

/-- A successful `normalizeChildren` has one output child per input child,
in document order (witnessed here by the tags agreeing position by
position). -/
theorem normalizeChildren_ok_shape (l : List Node) (d : String) :
    ∀ ts, normalizeChildren l d = .ok ts →
    ts.length = l.length ∧
      ∀ i (h1 : i < ts.length) (h2 : i < l.length),
        (ts.get ⟨i, h1⟩).tag = (l.get ⟨i, h2⟩).tagName := by
  induction l with
  | nil =>
    intro ts h
    simp only [normalizeChildren, Except.ok.injEq] at h
    subst h
    simp
  | cons c rest ih =>
    intro ts h
    simp only [normalizeChildren] at h
    cases hn : normalizeNode c d with
    | error e => rw [hn] at h; exact absurd h (by simp)
    | ok a =>
      rw [hn] at h
      cases hr : normalizeChildren rest d with
      | error e => rw [hr] at h; exact absurd h (by simp)
      | ok as =>
        rw [hr] at h
        simp only [Except.ok.injEq] at h
        subst h
        obtain ⟨hlen, htags⟩ := ih as hr
        refine ⟨by simp [hlen], ?_⟩
        intro i h1 h2
        match i with
        | 0 => exact (normalizeNode_ok_shape c d a hn).2.1
        | j + 1 => exact htags j (by simpa using h1) (by simpa using h2)

/-- A successful `normalizeChildren` is position-by-position the
normalization of the corresponding source child: output child `i` is
exactly `normalizeNode` of source child `i`. -/
theorem normalizeChildren_ok_pointwise (l : List Node) (d : String) :
    ∀ ts, normalizeChildren l d = .ok ts →
    ∀ i (h1 : i < ts.length) (h2 : i < l.length),
      normalizeNode (l.get ⟨i, h2⟩) d = .ok (ts.get ⟨i, h1⟩) := by
  induction l with
  | nil => intro ts h i h1 h2; simp at h2
  | cons c rest ih =>
    intro ts h i h1 h2
    simp only [normalizeChildren] at h
    cases hn : normalizeNode c d with
    | error e => rw [hn] at h; exact absurd h (by simp)
    | ok a =>
      rw [hn] at h
      cases hr : normalizeChildren rest d with
      | error e => rw [hr] at h; exact absurd h (by simp)
      | ok as =>
        rw [hr] at h
        simp only [Except.ok.injEq] at h
        subst h
        match i with
        | 0 => exact hn
        | j + 1 => exact ih as hr j (by simpa using h1) (by simpa using h2)

/-! Success and failure of normalization on well-formed attribute trees. -/

/-- Helper for `normalizeNode_total`: the corresponding statement for a
child list, given the statement for each member. -/
theorem normalizeChildren_total (l : List Node) (d : String)
    (hmem : ∀ c ∈ l, uniqueAttrs c = true →
      ((noEmptyTags c = true → ∃ t, normalizeNode c d = .ok t) ∧
       (noEmptyTags c = false →
         normalizeNode c d = .error (d ++ " Element should have no no-tag node"))))
    (hu : uniqueAttrsList l = true) :
    (noEmptyTagsList l = true → ∃ ts, normalizeChildren l d = .ok ts) ∧
    (noEmptyTagsList l = false →
      normalizeChildren l d = .error (d ++ " Element should have no no-tag node")) := by
  induction l with
  | nil => simp [normalizeChildren, noEmptyTagsList]
  | cons c rest ih =>
    have huc : uniqueAttrs c = true := by
      simp [uniqueAttrsList, Bool.and_eq_true] at hu
      exact hu.1
    have hur : uniqueAttrsList rest = true := by
      simp [uniqueAttrsList, Bool.and_eq_true] at hu
      exact hu.2
    have hc := hmem c (by simp) huc
    have ihr := ih (fun x hx => hmem x (by simp [hx])) hur
    constructor
    · intro hne
      simp only [noEmptyTagsList, Bool.and_eq_true] at hne
      obtain ⟨t, ht⟩ := hc.1 hne.1
      obtain ⟨ts, hts⟩ := ihr.1 hne.2
      exact ⟨t :: ts, by simp [normalizeChildren, ht, hts]⟩
    · intro hne
      by_cases h1 : noEmptyTags c = true
      · obtain ⟨t, ht⟩ := hc.1 h1
        have h2 : noEmptyTagsList rest = false := by
          cases h3 : noEmptyTagsList rest with
          | false => rfl
          | true => simp [noEmptyTagsList, h1, h3] at hne
        simp [normalizeChildren, ht, ihr.2 h2]
      · have h1' : noEmptyTags c = false := by simpa using h1
        simp [normalizeChildren, hc.2 h1']

/-- On a tree whose attribute names are unique per node, `normalizeNode`
succeeds exactly when every subtree tag is non-empty, and otherwise throws
the no-tag `TypeError` carrying the debug label. -/
theorem normalizeNode_total (n : Node) :
    ∀ d : String, uniqueAttrs n = true →
    (noEmptyTags n = true → ∃ t, normalizeNode n d = .ok t) ∧
    (noEmptyTags n = false →
      normalizeNode n d = .error (d ++ " Element should have no no-tag node")) := by
  induction n using Node.strongInduction with
  | _ tag attrs cs ih =>
    intro d hu
    have hnd : namesNodup attrs = true := by
      simp [uniqueAttrs, Bool.and_eq_true] at hu
      exact hu.1
    have hul : uniqueAttrsList cs = true := by
      simp [uniqueAttrs, Bool.and_eq_true] at hu
      exact hu.2
    have hkids := normalizeChildren_total cs d (fun c hc => ih c hc d) hul
    by_cases htag : tag = ""
    · constructor
      · intro hne
        rw [htag] at hne
        simp [noEmptyTags] at hne
      · intro _
        simp [normalizeNode, htag]
    · have hra := reduceAttrs_nodup attrs hnd
      constructor
      · intro hne
        have hne' : noEmptyTagsList cs = true := by
          simp only [noEmptyTags, Bool.and_eq_true] at hne
          exact hne.2
        obtain ⟨ts, hts⟩ := hkids.1 hne'
        exact ⟨.mk tag (attrs.map fun a => (a.name, a.value)) ts,
          by simp [normalizeNode, htag, hra, hts]⟩
      · intro hne
        have hne' : noEmptyTagsList cs = false := by
          cases h3 : noEmptyTagsList cs with
          | false => rfl
          | true => simp [noEmptyTags, htag, h3] at hne
        simp [normalizeNode, htag, hra, hkids.2 hne']

/-! The returned trees never contain an empty tag. -/

/-- Helper for `normalizeNode_allTags`: the child-list form. -/
theorem normalizeChildren_allTags (l : List Node) (d : String)
    (hmem : ∀ c ∈ l, ∀ t, normalizeNode c d = .ok t → allTagsNonEmpty t = true) :
    ∀ ts, normalizeChildren l d = .ok ts → allTagsNonEmptyList ts = true := by
  induction l with
  | nil =>
    intro ts h
    simp only [normalizeChildren, Except.ok.injEq] at h
    subst h
    simp [allTagsNonEmptyList]
  | cons c rest ih =>
    intro ts h
    simp only [normalizeChildren] at h
    cases hn : normalizeNode c d with
    | error e => rw [hn] at h; exact absurd h (by simp)
    | ok a =>
      rw [hn] at h
      cases hr : normalizeChildren rest d with
      | error e => rw [hr] at h; exact absurd h (by simp)
      | ok as =>
        rw [hr] at h
        simp only [Except.ok.injEq] at h
        subst h
        have h1 := hmem c (by simp) a hn
        have h2 := ih (fun x hx => hmem x (by simp [hx])) as hr
        simp [allTagsNonEmptyList, h1, h2]

/-- Every tree `normalizeNode` returns has a non-empty tag at every
depth. -/
theorem normalizeNode_allTags (n : Node) :
    ∀ d t, normalizeNode n d = .ok t → allTagsNonEmpty t = true := by
  induction n using Node.strongInduction with
  | _ tag attrs cs ih =>
    intro d t h
    obtain ⟨htag, htagEq, _, hkids⟩ := normalizeNode_ok_shape _ d t h
    have hlist := normalizeChildren_allTags cs d (fun c hc => ih c hc d) t.children hkids
    obtain ⟨ttag, tattrs, tcs⟩ := t
    simp only [AbstractNode.tag] at htagEq
    simp only [Node.tagName] at htag htagEq
    simp only [AbstractNode.children] at hlist
    simp [allTagsNonEmpty, htagEq, htag, hlist]

/-! Substring containment facts for the error messages. -/

theorem stringData_append (a b : String) : (a ++ b).data = a.data ++ b.data := rfl

theorem leadsList_self_append (n ys : List Char) : leadsList n (n ++ ys) = true := by
  induction n with
  | nil => simp [leadsList]
  | cons c cs ih => simp [leadsList, ih]

theorem occursList_nil (l : List Char) : occursList [] l = true := by
  cases l with
  | nil => simp [occursList]
  | cons c cs => simp [occursList, leadsList]

theorem occursList_mid (n xs ys : List Char) :
    occursList n (xs ++ n ++ ys) = true := by
  induction xs with
  | nil =>
    cases n with
    | nil => simpa using occursList_nil ys
    | cons c cs =>
      simp only [List.nil_append, List.cons_append, occursList, Bool.or_eq_true]
      exact Or.inl (by simpa using leadsList_self_append (c :: cs) ys)
  | cons x xs ih =>
    simp only [List.cons_append, occursList, Bool.or_eq_true]
    exact Or.inr (by simpa [List.append_assoc] using ih)

/-- A string built around `needle` contains it. -/
theorem containsStr_of_data (hay needle : String) (pre post : List Char)
    (h : hay.data = pre ++ needle.data ++ post) : containsStr hay needle = true := by
  rw [containsStr, h]
  exact occursList_mid needle.data pre post

/-! Characterisation of each `generateAbstractTree` branch. -/

theorem generateAbstractTree_notSvg (node : Node) (d : String)
    (h : node.tagName ≠ "svg") : generateAbstractTree node d = .error d := by
  unfold generateAbstractTree
  simp [h]

theorem generateAbstractTree_noViewBox (node : Node) (d : String)
    (h : node.tagName = "svg")
    (hvb : node.attrs.find? (fun a => a.name == "viewBox") = none) :
    generateAbstractTree node d = .error d := by
  unfold generateAbstractTree
  simp [h, hvb]

theorem generateAbstractTree_badSize (node : Node) (d : String) (vb : Attr)
    (h : node.tagName = "svg")
    (hvb : node.attrs.find? (fun a => a.name == "viewBox") = some vb)
    (hlen : ((jsSplitChar vb.value ' ').drop 2).length ≠ 2) :
    generateAbstractTree node d =
      .error (sizeMessage (((jsSplitChar vb.value ' ').drop 2).map jsParseInt) d) := by
  unfold generateAbstractTree
  rw [List.length_drop] at hlen
  simp [h, hvb, hlen]

theorem generateAbstractTree_sizeOk (node : Node) (d : String) (vb : Attr)
    (h : node.tagName = "svg")
    (hvb : node.attrs.find? (fun a => a.name == "viewBox") = some vb)
    (hlen : ((jsSplitChar vb.value ' ').drop 2).length = 2) :
    generateAbstractTree node d =
      if (node.childNodes.filter
            (fun c => c.nodeName != "style" && c.childNodes.length == 0)).length ≥ 1
      then normalizeNode node d
      else .error d := by
  unfold generateAbstractTree
  rw [List.length_drop] at hlen
  simp [h, hvb, hlen]

/-! Rollback-loop lemmas. -/

theorem rollbackLoop_spec (probe : String → ProbeResult) :
    ∀ (ps : List (String × String)) (i : Nat) (hi : i < ps.length),
    probe (ps.get ⟨i, hi⟩).2 = .ok →
    (∀ j (hj : j < i), probe (ps.get ⟨j, Nat.lt_trans hj hi⟩).2 ≠ .ok) →
    rollbackLoop probe ps = some (ps.get ⟨i, hi⟩).1 := by
  intro ps
  induction ps with
  | nil => intro i hi; simp at hi
  | cons p rest ih =>
    intro i hi hok hbefore
    match i with
    | 0 =>
      simp only [List.get] at hok ⊢
      simp [rollbackLoop, hok]
    | j + 1 =>
      have hp : probe p.2 ≠ .ok := by
        have := hbefore 0 (Nat.succ_pos j)
        simpa using this
      have hrest := ih j (by simpa using hi) (by simpa using hok)
        (fun j2 hj2 => by
          have := hbefore (j2 + 1) (by omega)
          simpa using this)
      cases hpp : probe p.2 with
      | ok => exact absurd hpp hp
      | absent => simpa [rollbackLoop, hpp] using hrest
      | ioErr => simpa [rollbackLoop, hpp] using hrest

theorem rollbackLoop_none (probe : String → ProbeResult)
    (ps : List (String × String)) (h : ∀ p ∈ ps, probe p.2 ≠ .ok) :
    rollbackLoop probe ps = none := by
  induction ps with
  | nil => rfl
  | cons p rest ih =>
    have hp := h p (by simp)
    cases hpp : probe p.2 with
    | ok => exact absurd hpp hp
    | absent => simpa [rollbackLoop, hpp] using ih (fun q hq => h q (by simp [hq]))
    | ioErr => simpa [rollbackLoop, hpp] using ih (fun q hq => h q (by simp [hq]))

theorem rollbackLoop_congr (probe1 probe2 : String → ProbeResult)
    (h : ∀ u, probe1 u = .ok ↔ probe2 u = .ok) :
    ∀ ps, rollbackLoop probe1 ps = rollbackLoop probe2 ps := by
  intro ps
  induction ps with
  | nil => rfl
  | cons p rest ih =>
    by_cases h1 : probe1 p.2 = .ok
    · have h2 : probe2 p.2 = .ok := (h p.2).mp h1
      simp [rollbackLoop, h1, h2]
    · have h2 : probe2 p.2 ≠ .ok := fun hx => h1 ((h p.2).mpr hx)
      cases hp1 : probe1 p.2 with
      | ok => exact absurd hp1 h1
      | absent =>
        cases hp2 : probe2 p.2 with
        | ok => exact absurd hp2 h2
        | absent => simpa [rollbackLoop, hp1, hp2] using ih
        | ioErr => simpa [rollbackLoop, hp1, hp2] using ih
      | ioErr =>
        cases hp2 : probe2 p.2 with
        | ok => exact absurd hp2 h2
        | absent => simpa [rollbackLoop, hp1, hp2] using ih
        | ioErr => simpa [rollbackLoop, hp1, hp2] using ih

/-! Object-assignment lemmas for `theseShouldBeWithTheme`. -/

theorem assignKey_lookup (m : List (String × String)) (k v k' : String) :
    (assignKey m k v).lookup k' = if k' = k then some v else m.lookup k' := by
  induction m with
  | nil =>
    by_cases h : k' = k
    · simp [assignKey, List.lookup, h]
    · have hb : (k' == k) = false := by simpa using h
      simp [assignKey, List.lookup, h, hb]
  | cons p rest ih =>
    obtain ⟨pk, pv⟩ := p
    by_cases h1 : pk = k
    · subst h1
      by_cases h2 : k' = pk
      · simp [assignKey, List.lookup, h2]
      · have hb : (k' == pk) = false := by simpa using h2
        simp [assignKey, List.lookup, h2, hb]
    · have hb1 : (pk == k) = false := by simpa using h1
      by_cases h2 : k' = pk
      · have hk : ¬ k' = k := by rw [h2]; exact h1
        have hb2 : (k' == pk) = true := by simpa using h2
        simp [assignKey, List.lookup, hb1, hb2, hk]
      · have hb2 : (k' == pk) = false := by simpa using h2
        simp [assignKey, List.lookup, hb1, hb2, ih]

theorem assignKey_keys_mem (m : List (String × String)) (k v x : String) :
    x ∈ (assignKey m k v).map Prod.fst ↔ x ∈ m.map Prod.fst ∨ x = k := by
  induction m with
  | nil => simp [assignKey]
  | cons p rest ih =>
    obtain ⟨pk, pv⟩ := p
    by_cases h1 : pk = k
    · have hb : (pk == k) = true := by simpa using h1
      simp [assignKey, hb, h1]
      tauto
    · have hb : (pk == k) = false := by simpa using h1
      simp [assignKey, hb, ih]
      tauto

theorem assignKey_keys (m : List (String × String)) (k v : String) :
    (assignKey m k v).map Prod.fst =
      if k ∈ m.map Prod.fst then m.map Prod.fst
      else m.map Prod.fst ++ [k] := by
  induction m with
  | nil => simp [assignKey]
  | cons p rest ih =>
    obtain ⟨pk, pv⟩ := p
    by_cases h1 : pk = k
    · have hb : (pk == k) = true := by simpa using h1
      simp [assignKey, hb, h1]
    · have hb : (pk == k) = false := by simpa using h1
      by_cases h2 : k ∈ rest.map Prod.fst <;>
        simp [assignKey, hb, ih, h2, Ne.symm h1]

theorem assignKey_nodup (m : List (String × String)) (k v : String)
    (h : (m.map Prod.fst).Nodup) : ((assignKey m k v).map Prod.fst).Nodup := by
  rw [assignKey_keys]
  by_cases h2 : k ∈ m.map Prod.fst
  · simpa [h2] using h
  · simp only [h2, if_false]
    refine List.Nodup.append h (by simp) ?_
    intro x hx hy
    simp at hy
    exact h2 (hy ▸ hx)

theorem reduceAssign_lookup (g : String → String) :
    ∀ (ps : List (String × String)) (acc : List (String × String)) (k : String),
    (∀ p ∈ ps, p.2 = g p.1) →
    (reduceAssign acc ps).lookup k =
      if k ∈ ps.map Prod.fst then some (g k) else acc.lookup k := by
  intro ps
  induction ps with
  | nil => intro acc k _; simp [reduceAssign]
  | cons p rest ih =>
    intro acc k hval
    have hrec := ih (assignKey acc p.1 p.2) k (fun q hq => hval q (by simp [hq]))
    rw [reduceAssign, hrec]
    by_cases h1 : k ∈ rest.map Prod.fst
    · simp [h1]
    · by_cases h2 : k = p.1
      · have : p.2 = g p.1 := hval p (by simp)
        simp [h1, h2, assignKey_lookup, this]
      · simp [h1, h2, assignKey_lookup, Ne.symm h2]

theorem reduceAssign_keys_mem :
    ∀ (ps acc : List (String × String)) (x : String),
    x ∈ (reduceAssign acc ps).map Prod.fst ↔
      x ∈ acc.map Prod.fst ∨ x ∈ ps.map Prod.fst := by
  intro ps
  induction ps with
  | nil => intro acc x; simp [reduceAssign]
  | cons p rest ih =>
    intro acc x
    rw [reduceAssign, ih, assignKey_keys_mem]
    simp
    tauto

theorem reduceAssign_nodup :
    ∀ (ps acc : List (String × String)), (acc.map Prod.fst).Nodup →
    ((reduceAssign acc ps).map Prod.fst).Nodup := by
  intro ps
  induction ps with
  | nil => intro acc h; simpa [reduceAssign] using h
  | cons p rest ih =>
    intro acc h
    exact ih _ (assignKey_nodup acc p.1 p.2 h)

/-! Themed-pair lemmas. -/

theorem themedValue_ok (nm theme : String) (kebab : Bool)
    (h : theme = "fill" ∨ theme = "outline" ∨ theme = "twotone") :
    ∃ v, themedValue nm theme kebab = .ok v := by
  rcases h with h | h | h <;> subst h <;> cases kebab <;>
    simp [themedValue, withSuffix, getIdentifier]

theorem themedPairs_ok (names : List String) (theme : String) (kebab : Bool)
    (h : ∀ nm ∈ names, ∃ v, themedValue nm theme kebab = .ok v) :
    ∃ ps, themedPairs names theme kebab = .ok ps ∧
      ps.map Prod.fst = names ∧
      ∀ p ∈ ps, themedValue p.1 theme kebab = .ok p.2 := by
  induction names with
  | nil => exact ⟨[], by simp [themedPairs]⟩
  | cons nm rest ih =>
    obtain ⟨v, hv⟩ := h nm (by simp)
    obtain ⟨ps, hps, hkeys, hvals⟩ := ih (fun x hx => h x (by simp [hx]))
    refine ⟨(nm, v) :: ps, ?_, by simp [hkeys], ?_⟩
    · simp [themedPairs, hv, hps]
    · intro p hp
      rcases List.mem_cons.mp hp with h1 | h1
      · subst h1; simpa using hv
      · exact hvals p h1

/-! Conflict analysis of the attribute `reduce` (for the duplicate-name
claim). -/

/-- The value the built `attrs` object holds under key `k`. -/
def findVal (m : List (String × String)) (k : String) : Option String :=
  (m.find? (fun p => p.1 == k)).map Prod.snd

theorem find?_append_of_none {α : Type} (p : α → Bool) (l1 l2 : List α)
    (h : l1.find? p = none) : (l1 ++ l2).find? p = l2.find? p := by
  induction l1 with
  | nil => simp
  | cons a rest ih =>
    cases hpa : p a with
    | true => simp [List.find?_cons, hpa] at h
    | false =>
      rw [List.find?_cons, hpa] at h
      simp [List.find?_cons, hpa, ih h]

theorem find?_append_of_some {α : Type} (p : α → Bool) (l1 l2 : List α)
    (q : α) (h : l1.find? p = some q) : (l1 ++ l2).find? p = some q := by
  induction l1 with
  | nil => simp at h
  | cons a rest ih =>
    cases hpa : p a with
    | true =>
      rw [List.find?_cons, hpa] at h
      simpa [List.find?_cons, hpa] using h
    | false =>
      rw [List.find?_cons, hpa] at h
      simp [List.find?_cons, hpa, ih h]

/-- A successful `Object.defineProperty` leaves the named key bound to the
supplied value and preserves every existing binding. -/
theorem definePropertyAttr_ok (acc : List (String × String))
    (name value : String) (acc2 : List (String × String))
    (h : definePropertyAttr acc name value = .ok acc2) :
    findVal acc2 name = some value ∧
      ∀ k v, findVal acc k = some v → findVal acc2 k = some v := by
  unfold definePropertyAttr at h
  cases hf : acc.find? (fun p => p.1 == name) with
  | none =>
    rw [hf] at h
    simp only [Except.ok.injEq] at h
    subst h
    constructor
    · rw [findVal, find?_append_of_none _ _ _ hf]
      simp [List.find?_cons]
    · intro k v hkv
      rw [findVal] at hkv ⊢
      cases hfk : acc.find? (fun p => p.1 == k) with
      | none => simp [hfk] at hkv
      | some q =>
        rw [hfk] at hkv
        rw [find?_append_of_some _ _ _ q hfk]
        exact hkv
  | some q =>
    simp only [hf] at h
    by_cases hqv : q.2 = value
    · have hb : (q.2 == value) = true := by simpa using hqv
      rw [if_pos hb] at h
      simp only [Except.ok.injEq] at h
      subst h
      refine ⟨?_, fun k v hkv => hkv⟩
      rw [findVal, hf]
      simp [hqv]
    · have hb : ¬ ((q.2 == value) = true) := by simpa using hqv
      rw [if_neg hb] at h
      simp at h

/-- A successful `reduce` preserves every binding of the accumulator. -/
theorem reduceAttrs_ok_mono (attrs : List Attr) :
    ∀ acc res, reduceAttrs acc attrs = .ok res →
    ∀ k v, findVal acc k = some v → findVal res k = some v := by
  induction attrs with
  | nil =>
    intro acc res h k v hkv
    simp only [reduceAttrs, Except.ok.injEq] at h
    exact h ▸ hkv
  | cons a rest ih =>
    intro acc res h k v hkv
    rw [reduceAttrs] at h
    cases hd : definePropertyAttr acc a.name a.value with
    | error e => rw [hd] at h; exact absurd h (by simp)
    | ok acc2 =>
      rw [hd] at h
      exact ih acc2 res h k v ((definePropertyAttr_ok acc _ _ acc2 hd).2 k v hkv)

/-- After a successful `reduce`, every processed attribute's name is bound
to that attribute's value. -/
theorem reduceAttrs_ok_elem (attrs : List Attr) :
    ∀ acc res, reduceAttrs acc attrs = .ok res →
    ∀ a ∈ attrs, findVal res a.name = some a.value := by
  induction attrs with
  | nil => intro acc res _ a ha; simp at ha
  | cons b rest ih =>
    intro acc res h a ha
    rw [reduceAttrs] at h
    cases hd : definePropertyAttr acc b.name b.value with
    | error e => rw [hd] at h; exact absurd h (by simp)
    | ok acc2 =>
      rw [hd] at h
      rcases List.mem_cons.mp ha with h1 | h1
      · subst h1
        exact reduceAttrs_ok_mono rest acc2 res h a.name a.value
          (definePropertyAttr_ok acc _ _ acc2 hd).1
      · exact ih acc2 res h a h1

/-- The only error the attribute `reduce` can throw is the `TypeError` of a
conflicting property redefinition. -/
theorem reduceAttrs_error_shape (attrs : List Attr) :
    ∀ acc e, reduceAttrs acc attrs = .error e →
    ∃ nm, e = "Cannot redefine property: " ++ nm := by
  induction attrs with
  | nil => intro acc e h; simp [reduceAttrs] at h
  | cons a rest ih =>
    intro acc e h
    rw [reduceAttrs] at h
    cases hd : definePropertyAttr acc a.name a.value with
    | error e2 =>
      rw [hd] at h
      simp only [Except.error.injEq] at h
      subst h
      unfold definePropertyAttr at hd
      cases hf : acc.find? (fun p => p.1 == a.name) with
      | none => rw [hf] at hd; simp at hd
      | some q =>
        simp only [hf] at hd
        by_cases hqv : (q.2 == a.value) = true
        · rw [if_pos hqv] at hd; simp at hd
        · rw [if_neg hqv] at hd
          simp only [Except.error.injEq] at hd
          exact ⟨a.name, hd.symm⟩
    | ok acc2 =>
      rw [hd] at h
      exact ih acc2 e h

/-! Remaining shared helpers. -/

/-- The drawable-leaf filter is non-empty iff some direct child is a
non-`style` childless element. -/
theorem drawableFilter_pos (node : Node)
    (hleaf : ∃ c ∈ node.childNodes, c.tagName ≠ "style" ∧ c.childNodes = []) :
    (node.childNodes.filter
      (fun c => c.nodeName != "style" && c.childNodes.length == 0)).length ≥ 1 := by
  obtain ⟨c, hc, htag, hkids⟩ := hleaf
  have hmem : c ∈ node.childNodes.filter
      (fun c => c.nodeName != "style" && c.childNodes.length == 0) := by
    rw [List.mem_filter]
    refine ⟨hc, ?_⟩
    simp [Node.nodeName, htag, hkids]
  have := List.length_pos.mpr (List.ne_nil_of_mem hmem)
  omega

theorem drawableFilter_nil (node : Node)
    (hall : ∀ c ∈ node.childNodes, c.tagName = "style" ∨ c.childNodes ≠ []) :
    node.childNodes.filter
      (fun c => c.nodeName != "style" && c.childNodes.length == 0) = [] := by
  rw [List.filter_eq_nil_iff]
  intro c hc
  rcases hall c hc with h | h
  · simp [Node.nodeName, h]
  · simp [Node.nodeName, h]

/-- The size-assertion message always carries the debug label. -/
theorem sizeMessage_contains (s : List (Option Int)) (d : String) :
    containsStr (sizeMessage s d) d = true :=
  containsStr_of_data _ _
    ("The size tuple should be [ width, height ], but got [ " ++
      jsIndexString s 0 ++ ", " ++ jsIndexString s 1 ++ " ] [").data
    "]".data (by simp [sizeMessage, stringData_append])

theorem isAccessable_iff (probe : String → ProbeResult) (url : String) :
    isAccessable probe url = true ↔ probe url = .ok := by
  cases h : probe url <;> simp [isAccessable, h]

theorem isAccessable_false_iff (probe : String → ProbeResult) (url : String) :
    isAccessable probe url = false ↔ probe url ≠ .ok := by
  cases h : probe url <;> simp [isAccessable, h]

theorem getRollbackTheme_eq (probe : String → ProbeResult) (env : Environment)
    (kebabCaseName : String) (rollbackList : List String) :
    getRollbackTheme probe env kebabCaseName rollbackList =
      match rollbackLoop probe (rollbackList.map
          (fun theme => (theme, svgUrl env theme kebabCaseName))) with
      | some theme => .ok theme
      | none => .error ("There is no SVG of the icon: " ++ kebabCaseName) := rfl

/-- Whenever `generateAbstractTree` succeeds, its result is exactly the
`normalizeNode` of the same root. -/
theorem generateAbstractTree_ok_imp (node : Node) (d : String) (t : AbstractNode)
    (h : generateAbstractTree node d = .ok t) : normalizeNode node d = .ok t := by
  by_cases h1 : node.tagName = "svg"
  · cases hvb : node.attrs.find? (fun a => a.name == "viewBox") with
    | none =>
      rw [generateAbstractTree_noViewBox node d h1 hvb] at h
      exact absurd h (by simp)
    | some vb =>
      by_cases h2 : ((jsSplitChar vb.value ' ').drop 2).length = 2
      · rw [generateAbstractTree_sizeOk node d vb h1 hvb h2] at h
        by_cases h3 : (node.childNodes.filter
            (fun c => c.nodeName != "style" && c.childNodes.length == 0)).length ≥ 1
        · rwa [if_pos h3] at h
        · rw [if_neg h3] at h
          exact absurd h (by simp)
      · rw [generateAbstractTree_badSize node d vb h1 hvb h2] at h
        exact absurd h (by simp)
  · rw [generateAbstractTree_notSvg node d h1] at h
    exact absurd h (by simp)

/-! Claim theorems. -/

/-- C1, counterexample: an `svg` root whose `viewBox` tail is exactly two
tokens neither of which parses as a base-10 integer is *accepted* by
`generateAbstractTree`, although the claim demands a validation error for
every tail that is not two successfully-parsed integers. -/
theorem c1_counterexample :
    (Node.mk "svg" [Attr.mk "viewBox" "0 0 x y"] [Node.mk "path" [] []]).tagName
        = "svg" ∧
    (Node.mk "svg" [Attr.mk "viewBox" "0 0 x y"]
        [Node.mk "path" [] []]).attrs.find? (fun a => a.name == "viewBox")
        = some (Attr.mk "viewBox" "0 0 x y") ∧
    (jsSplitChar "0 0 x y" ' ').drop 2 = ["x", "y"] ∧
    jsParseInt "x" = none ∧
    jsParseInt "y" = none ∧
    generateAbstractTree
        (Node.mk "svg" [Attr.mk "viewBox" "0 0 x y"] [Node.mk "path" [] []]) "close"
      = .ok (AbstractNode.mk "svg" [("viewBox", "0 0 x y")]
          [AbstractNode.mk "path" [] []]) :=
  ⟨rfl, rfl, rfl, rfl, rfl, rfl⟩

/-- C1 (amended): on an `svg` root, `generateAbstractTree` fails when the
`viewBox` attribute is missing (error naming the debug label) or when the
tail of the `viewBox` value after the first two space-separated tokens does
not have exactly two tokens (error naming the parse results and the debug
label); a tail of exactly two tokens passes the check whether or not the
tokens parse as integers, the parsed values being used only in the error
message. -/
theorem c1_viewbox_token_count (node : Node) (d : String)
    (h : node.tagName = "svg") :
    (node.attrs.find? (fun a => a.name == "viewBox") = none →
      generateAbstractTree node d = .error d) ∧
    (∀ vb, node.attrs.find? (fun a => a.name == "viewBox") = some vb →
      (((jsSplitChar vb.value ' ').drop 2).length ≠ 2 →
        generateAbstractTree node d =
          .error (sizeMessage (((jsSplitChar vb.value ' ').drop 2).map jsParseInt) d) ∧
        containsStr
          (sizeMessage (((jsSplitChar vb.value ' ').drop 2).map jsParseInt) d) d
          = true) ∧
      (((jsSplitChar vb.value ' ').drop 2).length = 2 →
        generateAbstractTree node d =
          if (node.childNodes.filter
                (fun c => c.nodeName != "style" && c.childNodes.length == 0)).length ≥ 1
          then normalizeNode node d
          else .error d)) := by
  refine ⟨fun hvb => generateAbstractTree_noViewBox node d h hvb, ?_⟩
  intro vb hvb
  constructor
  · intro hlen
    exact ⟨generateAbstractTree_badSize node d vb h hvb hlen,
      sizeMessage_contains _ d⟩
  · intro hlen
    exact generateAbstractTree_sizeOk node d vb h hvb hlen

/-- C1 witness: on a `viewBox` whose tail has a single token the builder
throws the size assertion, whose message carries the debug label. -/
theorem c1_viewbox_token_count_witness :
    generateAbstractTree
        (Node.mk "svg" [Attr.mk "viewBox" "0 0 24"] [Node.mk "path" [] []]) "lbl"
      = .error
        "The size tuple should be [ width, height ], but got [ 24, undefined ] [lbl]" ∧
    containsStr
      "The size tuple should be [ width, height ], but got [ 24, undefined ] [lbl]"
      "lbl" = true := by
  have h := ((c1_viewbox_token_count
      (Node.mk "svg" [Attr.mk "viewBox" "0 0 24"] [Node.mk "path" [] []]) "lbl"
      rfl).2 (Attr.mk "viewBox" "0 0 24") rfl).1 (by decide)
  exact ⟨h.1, h.2⟩

/-- C3: on a fully valid `svg` root — `svg` tag, a `viewBox` whose tail is
two parseable tokens, a drawable leaf child, and non-empty tags plus unique
attribute names throughout the subtree — `generateAbstractTree` returns a
tree with the root's tag, exactly one attribute entry per source attribute
with the source's value, and one output child per input child in document
order: the children sequence is the `normalizeChildren` of the source
children, so output child `i` is precisely the normalization of source
child `i`. -/
theorem c3_valid_svg_tree (node : Node) (d : String) (vb : Attr)
    (h : node.tagName = "svg")
    (hvb : node.attrs.find? (fun a => a.name == "viewBox") = some vb)
    (hlen : ((jsSplitChar vb.value ' ').drop 2).length = 2)
    (hnum : ∀ s ∈ (jsSplitChar vb.value ' ').drop 2, (jsParseInt s).isSome = true)
    (hleaf : ∃ c ∈ node.childNodes, c.tagName ≠ "style" ∧ c.childNodes = [])
    (hu : uniqueAttrs node = true) (hne : noEmptyTags node = true) :
    ∃ t, generateAbstractTree node d = .ok t ∧
      t.tag = node.tagName ∧
      t.attrs = node.attrs.map (fun a => (a.name, a.value)) ∧
      t.children.length = node.childNodes.length ∧
      normalizeChildren node.childNodes d = .ok t.children ∧
      ∀ i (h1 : i < t.children.length) (h2 : i < node.childNodes.length),
        normalizeNode (node.childNodes.get ⟨i, h2⟩) d
          = .ok (t.children.get ⟨i, h1⟩) := by
  obtain ⟨t, ht⟩ := (normalizeNode_total node d hu).1 hne
  have hgen : generateAbstractTree node d = .ok t := by
    rw [generateAbstractTree_sizeOk node d vb h hvb hlen,
      if_pos (drawableFilter_pos node hleaf)]
    exact ht
  obtain ⟨_, htag, hattrs, hkids⟩ := normalizeNode_ok_shape node d t ht
  have hndp : namesNodup node.attrs = true := by
    obtain ⟨tag, attrs, cs⟩ := node
    simp only [uniqueAttrs, Bool.and_eq_true] at hu
    exact hu.1
  have hattrs2 : t.attrs = node.attrs.map (fun a => (a.name, a.value)) := by
    have h2 := reduceAttrs_nodup node.attrs hndp
    rw [hattrs] at h2
    simpa using h2
  obtain ⟨hlen2, _⟩ := normalizeChildren_ok_shape node.childNodes d t.children hkids
  exact ⟨t, hgen, htag, hattrs2, hlen2, hkids,
    normalizeChildren_ok_pointwise node.childNodes d t.children hkids⟩

/-- C3 witness. -/
theorem c3_valid_svg_tree_witness :
    ∃ t, generateAbstractTree
        (Node.mk "svg" [Attr.mk "viewBox" "0 0 1024 1024", Attr.mk "focusable" "false"]
          [Node.mk "path" [Attr.mk "d" "M448 804a64 64 0 10128 0"] []]) "AndroidFilled"
      = .ok t ∧
      t.tag = (Node.mk "svg" [Attr.mk "viewBox" "0 0 1024 1024", Attr.mk "focusable" "false"]
          [Node.mk "path" [Attr.mk "d" "M448 804a64 64 0 10128 0"] []]).tagName ∧
      t.attrs = [("viewBox", "0 0 1024 1024"), ("focusable", "false")] ∧
      t.children.length = 1 ∧
      normalizeChildren [Node.mk "path" [Attr.mk "d" "M448 804a64 64 0 10128 0"] []]
        "AndroidFilled" = .ok t.children ∧
      ∀ i (h1 : i < t.children.length) (h2 : i < ([Node.mk "path"
          [Attr.mk "d" "M448 804a64 64 0 10128 0"] []] : List Node).length),
        normalizeNode (([Node.mk "path" [Attr.mk "d" "M448 804a64 64 0 10128 0"] []] :
            List Node).get ⟨i, h2⟩) "AndroidFilled"
          = .ok (t.children.get ⟨i, h1⟩) :=
  c3_valid_svg_tree _ "AndroidFilled" (Attr.mk "viewBox" "0 0 1024 1024") rfl rfl
    (by decide) (by decide)
    ⟨Node.mk "path" [Attr.mk "d" "M448 804a64 64 0 10128 0"] [],
      List.mem_cons_self _ _, by decide, rfl⟩
    (by decide) (by decide)

/-- C4: on an `svg` root that reaches the drawable-leaf check, the builder
fails with the debug-label error when no direct child is a drawable leaf
(non-`style` tag and no children of its own), and passes the check —
proceeding to normalization — when at least one such child exists. -/
theorem c4_drawable_leaf (node : Node) (d : String) (vb : Attr)
    (h : node.tagName = "svg")
    (hvb : node.attrs.find? (fun a => a.name == "viewBox") = some vb)
    (hlen : ((jsSplitChar vb.value ' ').drop 2).length = 2) :
    ((∀ c ∈ node.childNodes, c.tagName = "style" ∨ c.childNodes ≠ []) →
      generateAbstractTree node d = .error d) ∧
    ((∃ c ∈ node.childNodes, c.tagName ≠ "style" ∧ c.childNodes = []) →
      generateAbstractTree node d = normalizeNode node d) := by
  rw [generateAbstractTree_sizeOk node d vb h hvb hlen]
  constructor
  · intro hall
    rw [drawableFilter_nil node hall]
    simp
  · intro hleaf
    rw [if_pos (drawableFilter_pos node hleaf)]

/-- C4 witness: a root whose only children are a `style` element and a
non-leaf group fails; adding a drawable leaf passes. -/
theorem c4_drawable_leaf_witness :
    generateAbstractTree
        (Node.mk "svg" [Attr.mk "viewBox" "0 0 24 24"]
          [Node.mk "style" [] [], Node.mk "g" [] [Node.mk "path" [] []]]) "icon"
      = .error "icon" := by
  have h := (c4_drawable_leaf
      (Node.mk "svg" [Attr.mk "viewBox" "0 0 24 24"]
        [Node.mk "style" [] [], Node.mk "g" [] [Node.mk "path" [] []]]) "icon"
      (Attr.mk "viewBox" "0 0 24 24") rfl rfl (by decide)).1
  refine h ?_
  intro c hc
  simp only [Node.childNodes, List.mem_cons, List.not_mem_nil, or_false] at hc
  rcases hc with h1 | h1 <;> subst h1
  · left
    rfl
  · right
    simp [Node.childNodes]

/-- C7: on a tree with per-node-unique attribute names, `normalizeNode`
throws the fatal no-tag `TypeError` carrying the debug label whenever the
node or any descendant has a missing/empty tag, and every tree it or
`generateAbstractTree` returns has a non-empty tag at every depth. -/
theorem c7_no_empty_tag (n : Node) (d : String) (hu : uniqueAttrs n = true) :
    (noEmptyTags n = false →
      normalizeNode n d = .error (d ++ " Element should have no no-tag node") ∧
      containsStr (d ++ " Element should have no no-tag node") d = true) ∧
    (∀ t, normalizeNode n d = .ok t → allTagsNonEmpty t = true) ∧
    (∀ t, generateAbstractTree n d = .ok t → allTagsNonEmpty t = true) := by
  refine ⟨?_, fun t ht => normalizeNode_allTags n d t ht,
    fun t ht => normalizeNode_allTags n d t (generateAbstractTree_ok_imp n d t ht)⟩
  intro hbad
  refine ⟨(normalizeNode_total n d hu).2 hbad, ?_⟩
  exact containsStr_of_data _ _ [] (" Element should have no no-tag node".data)
    (by simp [stringData_append])

/-- C7 witness: a nested empty-tag node triggers the labelled fatal error. -/
theorem c7_no_empty_tag_witness :
    normalizeNode (Node.mk "svg" [] [Node.mk "g" [] [Node.mk "" [] []]]) "icon"
      = .error "icon Element should have no no-tag node" ∧
    containsStr "icon Element should have no no-tag node" "icon" = true := by
  have h := (c7_no_empty_tag
      (Node.mk "svg" [] [Node.mk "g" [] [Node.mk "" [] []]]) "icon"
      (by decide)).1 (by decide)
  exact ⟨h.1, h.2⟩

/-- C10: whenever `generateAbstractTree` returns without error, its result
is exactly `normalizeNode` of the same root and debug label — the
validation steps are pure checks whose computed values never affect the
returned tree. -/
theorem c10_validations_pure (node : Node) (d : String) (t : AbstractNode)
    (h : generateAbstractTree node d = .ok t) : normalizeNode node d = .ok t :=
  generateAbstractTree_ok_imp node d t h

/-- C10 witness. -/
theorem c10_validations_pure_witness :
    normalizeNode (Node.mk "svg" [Attr.mk "viewBox" "0 0 24 24"]
        [Node.mk "path" [Attr.mk "d" "M1 1"] []]) "icon"
      = .ok (AbstractNode.mk "svg" [("viewBox", "0 0 24 24")]
          [AbstractNode.mk "path" [("d", "M1 1")] []]) :=
  c10_validations_pure _ "icon" _ rfl

/-- C2, counterexample: when every probe fails, the thrown error names the
icon but none of the candidate themes that were tried, although the claim
demands the error report the tried candidates. -/
theorem c2_counterexample :
    getRollbackTheme (fun _ => ProbeResult.absent) ⟨⟨"/svg"⟩⟩ "close"
        ["fill", "outline", "twotone"]
      = .error "There is no SVG of the icon: close" ∧
    containsStr "There is no SVG of the icon: close" "fill" = false ∧
    containsStr "There is no SVG of the icon: close" "outline" = false ∧
    containsStr "There is no SVG of the icon: close" "twotone" = false :=
  ⟨rfl, by decide, by decide, by decide⟩

/-- C2 (amended): `getRollbackTheme` probes the theme-specific path of each
candidate theme in list order and returns the first theme whose probe
succeeds (first-match, not best-match); when no probe succeeds it fails
with the no-SVG error, which names the requested icon (but not the
candidate themes that were tried). -/
theorem c2_rollback_first_match (probe : String → ProbeResult)
    (env : Environment) (kebabCaseName : String) (rollbackList : List String) :
    (∀ i (hi : i < rollbackList.length),
      isAccessable probe
        (svgUrl env (rollbackList.get ⟨i, hi⟩) kebabCaseName) = true →
      (∀ j (hj : j < i), isAccessable probe
        (svgUrl env (rollbackList.get ⟨j, Nat.lt_trans hj hi⟩) kebabCaseName)
        = false) →
      getRollbackTheme probe env kebabCaseName rollbackList
        = .ok (rollbackList.get ⟨i, hi⟩)) ∧
    ((∀ th ∈ rollbackList,
        isAccessable probe (svgUrl env th kebabCaseName) = false) →
      getRollbackTheme probe env kebabCaseName rollbackList
        = .error ("There is no SVG of the icon: " ++ kebabCaseName) ∧
      containsStr ("There is no SVG of the icon: " ++ kebabCaseName)
        kebabCaseName = true) := by
  have hget : ∀ (i : Nat) (hi : i < rollbackList.length),
      (rollbackList.map
        (fun theme => (theme, svgUrl env theme kebabCaseName))).get
          ⟨i, by simpa using hi⟩
        = (rollbackList.get ⟨i, hi⟩,
           svgUrl env (rollbackList.get ⟨i, hi⟩) kebabCaseName) := by
    intro i hi
    simp [List.get_eq_getElem, List.getElem_map]
  constructor
  · intro i hi hacc hbefore
    have hok : probe ((rollbackList.map
        (fun theme => (theme, svgUrl env theme kebabCaseName))).get
          ⟨i, by simpa using hi⟩).2 = .ok := by
      rw [hget i hi]
      exact (isAccessable_iff probe _).mp hacc
    have hnot : ∀ j (hj : j < i), probe ((rollbackList.map
        (fun theme => (theme, svgUrl env theme kebabCaseName))).get
          ⟨j, Nat.lt_trans hj (by simpa using hi)⟩).2 ≠ .ok := by
      intro j hj
      rw [hget j (Nat.lt_trans hj hi)]
      exact (isAccessable_false_iff probe _).mp (hbefore j hj)
    have hloop := rollbackLoop_spec probe
      (rollbackList.map (fun theme => (theme, svgUrl env theme kebabCaseName)))
      i (by simpa using hi) hok hnot
    rw [getRollbackTheme_eq, hloop, hget i hi]
  · intro hall
    have hnone : rollbackLoop probe (rollbackList.map
        (fun theme => (theme, svgUrl env theme kebabCaseName))) = none := by
      apply rollbackLoop_none
      intro p hp
      obtain ⟨th, hth, hpth⟩ := List.mem_map.mp hp
      have := (isAccessable_false_iff probe _).mp (hall th hth)
      rw [← hpth]
      exact this
    refine ⟨by rw [getRollbackTheme_eq, hnone], ?_⟩
    exact containsStr_of_data _ _ ("There is no SVG of the icon: ".data) []
      (by simp [stringData_append])

/-- C2 witness: only the outline file exists, so the first-match scan over
`["twotone", "outline", "fill"]` returns `"outline"`. -/
theorem c2_rollback_first_match_witness :
    getRollbackTheme
        (fun url => if url == "/svg/outline/close.svg"
          then ProbeResult.ok else ProbeResult.absent)
        ⟨⟨"/svg"⟩⟩ "close" ["twotone", "outline", "fill"]
      = .ok "outline" := by
  have h := (c2_rollback_first_match
      (fun url => if url == "/svg/outline/close.svg"
        then ProbeResult.ok else ProbeResult.absent)
      ⟨⟨"/svg"⟩⟩ "close" ["twotone", "outline", "fill"]).1
      1 (by decide) (by decide)
      (fun j hj => by
        have hj0 : j = 0 := by omega
        subst hj0
        show isAccessable
            (fun url => if url == "/svg/outline/close.svg"
              then ProbeResult.ok else ProbeResult.absent)
            (svgUrl ⟨⟨"/svg"⟩⟩ "twotone" "close") = false
        decide)
  exact h

/-- C5: `getIdentifier` suffixes the identifier with `Fill`, `Outline` or
`TwoTone` and `withSuffix` suffixes the name with `-fill`, the irregular
`-o`, or `-twotone`; for any theme outside the closed enumeration each
throws a `TypeError` naming the offending theme and the given
identifier/name. -/
theorem c5_identifier_and_suffix (identifier name theme : String) :
    getIdentifier identifier "fill" = .ok (identifier ++ "Fill") ∧
    getIdentifier identifier "outline" = .ok (identifier ++ "Outline") ∧
    getIdentifier identifier "twotone" = .ok (identifier ++ "TwoTone") ∧
    withSuffix name "fill" = .ok (name ++ "-fill") ∧
    withSuffix name "outline" = .ok (name ++ "-o") ∧
    withSuffix name "twotone" = .ok (name ++ "-twotone") ∧
    (theme ≠ "fill" → theme ≠ "outline" → theme ≠ "twotone" →
      getIdentifier identifier theme =
        .error ("Unknown theme type: " ++ theme ++ ", identifier: " ++ identifier) ∧
      containsStr ("Unknown theme type: " ++ theme ++ ", identifier: " ++ identifier)
        theme = true ∧
      containsStr ("Unknown theme type: " ++ theme ++ ", identifier: " ++ identifier)
        identifier = true ∧
      withSuffix name theme =
        .error ("Unknown theme type: " ++ theme ++ ", name: " ++ name) ∧
      containsStr ("Unknown theme type: " ++ theme ++ ", name: " ++ name)
        theme = true ∧
      containsStr ("Unknown theme type: " ++ theme ++ ", name: " ++ name)
        name = true) := by
  refine ⟨by simp [getIdentifier], by simp [getIdentifier], by simp [getIdentifier],
    by simp [withSuffix], by simp [withSuffix], by simp [withSuffix], ?_⟩
  intro h1 h2 h3
  have hb1 : (theme == "fill") = false := by simpa using h1
  have hb2 : (theme == "outline") = false := by simpa using h2
  have hb3 : (theme == "twotone") = false := by simpa using h3
  refine ⟨by simp [getIdentifier, hb1, hb2, hb3], ?_, ?_,
    by simp [withSuffix, hb1, hb2, hb3], ?_, ?_⟩
  · exact containsStr_of_data _ _ ("Unknown theme type: ".data)
      ((", identifier: " ++ identifier).data) (by simp [stringData_append])
  · exact containsStr_of_data _ _
      (("Unknown theme type: " ++ theme ++ ", identifier: ").data) []
      (by simp [stringData_append])
  · exact containsStr_of_data _ _ ("Unknown theme type: ".data)
      ((", name: " ++ name).data) (by simp [stringData_append])
  · exact containsStr_of_data _ _
      (("Unknown theme type: " ++ theme ++ ", name: ").data) []
      (by simp [stringData_append])

/-- C5 witness: the spec's own examples, plus the `bogus` theme failing
with a message naming the theme and the identifier/name. -/
theorem c5_identifier_and_suffix_witness :
    getIdentifier "Close" "fill" = .ok "CloseFill" ∧
    getIdentifier "Close" "bogus"
      = .error "Unknown theme type: bogus, identifier: Close" ∧
    containsStr "Unknown theme type: bogus, identifier: Close" "bogus" = true ∧
    withSuffix "close" "bogus" = .error "Unknown theme type: bogus, name: close" := by
  have h := c5_identifier_and_suffix "Close" "close" "bogus"
  have h7 := h.2.2.2.2.2.2 (by decide) (by decide) (by decide)
  exact ⟨h.1, h7.1, h7.2.1, h7.2.2.2.1⟩

/-- C6: for a theme in the closed enumeration, `theseShouldBeWithTheme`
returns a mapping with exactly one entry per distinct input base name
(duplicates collapse by object-assignment semantics), each entry holding
the kebab name when the flag is set and otherwise the identifier of the
PascalCased base name. -/
theorem c6_themed_mapping (basicNames : List String) (theme : String)
    (isKebabCase : Bool)
    (h : theme = "fill" ∨ theme = "outline" ∨ theme = "twotone") :
    ∃ m, theseShouldBeWithTheme basicNames theme isKebabCase = .ok m ∧
      (m.map Prod.fst).Nodup ∧
      (∀ x, x ∈ m.map Prod.fst ↔ x ∈ basicNames) ∧
      ∀ nm ∈ basicNames,
        m.lookup nm = (themedValue nm theme isKebabCase).toOption := by
  obtain ⟨ps, hps, hkeys, hvals⟩ := themedPairs_ok basicNames theme isKebabCase
    (fun nm _ => themedValue_ok nm theme isKebabCase h)
  refine ⟨reduceAssign [] ps, by simp [theseShouldBeWithTheme, hps],
    reduceAssign_nodup ps [] (by simp), ?_, ?_⟩
  · intro x
    rw [reduceAssign_keys_mem, hkeys]
    simp
  · intro nm hnm
    have hg : ∀ p ∈ ps,
        p.2 = (fun k => ((themedValue k theme isKebabCase).toOption).getD "") p.1 := by
      intro p hp
      have hv := hvals p hp
      simp [hv, Except.toOption]
    rw [reduceAssign_lookup
      (fun k => ((themedValue k theme isKebabCase).toOption).getD "") ps [] nm hg]
    rw [if_pos (by rw [hkeys]; exact hnm)]
    obtain ⟨v, hv⟩ := themedValue_ok nm theme isKebabCase h
    simp [hv, Except.toOption]

/-- C6 witness: a duplicated base name collapses to one entry whose value
is the suffixed PascalCase identifier. -/
theorem c6_themed_mapping_witness :
    ∃ m, theseShouldBeWithTheme ["close-circle", "alert", "close-circle"]
        "outline" false = .ok m ∧
      (m.map Prod.fst).Nodup ∧
      (∀ x, x ∈ m.map Prod.fst ↔ x ∈ ["close-circle", "alert", "close-circle"]) ∧
      ∀ nm ∈ ["close-circle", "alert", "close-circle"],
        m.lookup nm = (themedValue nm "outline" false).toOption :=
  c6_themed_mapping ["close-circle", "alert", "close-circle"] "outline" false
    (Or.inr (Or.inl rfl))

/-- C8: `getRollbackTheme` cannot distinguish a probe that throws an I/O
error from one that reports the file absent — any two probes agreeing on
which paths are accessible produce identical outcomes, and `isAccessable`
likewise coalesces both failure kinds. -/
theorem c8_probe_error_coalesced (probe1 probe2 : String → ProbeResult)
    (env : Environment) (kebabCaseName : String) (rollbackList : List String)
    (h : ∀ u, probe1 u = .ok ↔ probe2 u = .ok) :
    getRollbackTheme probe1 env kebabCaseName rollbackList
      = getRollbackTheme probe2 env kebabCaseName rollbackList ∧
    ∀ u, isAccessable probe1 u = isAccessable probe2 u := by
  constructor
  · rw [getRollbackTheme_eq, getRollbackTheme_eq,
      rollbackLoop_congr probe1 probe2 h]
  · intro u
    by_cases h1 : probe1 u = .ok
    · have h2 := (h u).mp h1
      simp [isAccessable, h1, h2]
    · have h2 : probe2 u ≠ .ok := fun hx => h1 ((h u).mpr hx)
      cases hp1 : probe1 u with
      | ok => exact absurd hp1 h1
      | absent =>
        cases hp2 : probe2 u with
        | ok => exact absurd hp2 h2
        | absent => simp [isAccessable, hp1, hp2]
        | ioErr => simp [isAccessable, hp1, hp2]
      | ioErr =>
        cases hp2 : probe2 u with
        | ok => exact absurd hp2 h2
        | absent => simp [isAccessable, hp1, hp2]
        | ioErr => simp [isAccessable, hp1, hp2]

/-- C8 witness: an always-absent probe and an always-erroring probe give
the same exhaustion outcome. -/
theorem c8_probe_error_coalesced_witness :
    getRollbackTheme (fun _ => ProbeResult.absent) ⟨⟨"/svg"⟩⟩ "close" ["fill"]
      = getRollbackTheme (fun _ => ProbeResult.ioErr) ⟨⟨"/svg"⟩⟩ "close" ["fill"] :=
  (c8_probe_error_coalesced (fun _ => ProbeResult.absent)
    (fun _ => ProbeResult.ioErr) ⟨⟨"/svg"⟩⟩ "close" ["fill"]
    (fun u => ⟨fun hx => by simp at hx, fun hx => by simp at hx⟩)).1

/-- C9, counterexample: two attribute entries with the same name and the
*same* value do not throw — `Object.defineProperty` with an identical
descriptor is a no-op — so duplicate names alone, contrary to the claim,
do not make `normalizeNode` fail. -/
theorem c9_counterexample :
    namesNodup [Attr.mk "x" "1", Attr.mk "x" "1"] = false ∧
    normalizeNode (Node.mk "a" [Attr.mk "x" "1", Attr.mk "x" "1"] []) "d"
      = .ok (AbstractNode.mk "a" [("x", "1")] []) :=
  ⟨by decide, rfl⟩

/-- C9 (amended): the attribute `reduce` throws the redefinition
`TypeError` when two same-named entries carry *different* values; with
pairwise-distinct names the throwing branch is unreachable and the
constructed mapping has exactly one entry per attribute. -/
theorem c9_duplicate_attrs (attrs : List Attr) :
    ((∃ (i : Nat) (j : Nat) (hi : i < attrs.length) (hj : j < attrs.length),
        (attrs.get ⟨i, hi⟩).name = (attrs.get ⟨j, hj⟩).name ∧
        (attrs.get ⟨i, hi⟩).value ≠ (attrs.get ⟨j, hj⟩).value) →
      ∃ nm, reduceAttrs [] attrs = .error ("Cannot redefine property: " ++ nm)) ∧
    (namesNodup attrs = true →
      reduceAttrs [] attrs = .ok (attrs.map fun a => (a.name, a.value))) := by
  refine ⟨?_, reduceAttrs_nodup attrs⟩
  rintro ⟨i, j, hi, hj, hname, hval⟩
  cases hres : reduceAttrs [] attrs with
  | ok res =>
    have h1 := reduceAttrs_ok_elem attrs [] res hres (attrs.get ⟨i, hi⟩)
      (List.get_mem attrs i hi)
    have h2 := reduceAttrs_ok_elem attrs [] res hres (attrs.get ⟨j, hj⟩)
      (List.get_mem attrs j hj)
    rw [hname] at h1
    rw [h1] at h2
    exact absurd (Option.some.inj h2) hval
  | error e =>
    obtain ⟨nm, hnm⟩ := reduceAttrs_error_shape attrs [] e hres
    exact ⟨nm, by rw [hnm]⟩

/-- C9 witness: conflicting duplicate values throw; unique names copy
verbatim. -/
theorem c9_duplicate_attrs_witness :
    (∃ nm, reduceAttrs [] [Attr.mk "x" "1", Attr.mk "x" "2"]
      = .error ("Cannot redefine property: " ++ nm)) ∧
    reduceAttrs [] [Attr.mk "a" "1", Attr.mk "b" "2"]
      = .ok [("a", "1"), ("b", "2")] :=
  by
  constructor
  · exact (c9_duplicate_attrs [Attr.mk "x" "1", Attr.mk "x" "2"]).1
      ⟨0, 1, (by decide), (by decide), (by decide), (by decide)⟩
  · simpa using (c9_duplicate_attrs [Attr.mk "a" "1", Attr.mk "b" "2"]).2
      (by decide)

end IconGen
